import Mathlib

/-!
A shallow embedding of the `jsonapi` Go package (`data_structs.go`) together
with proofs about its encoding, decoding, field-projection and query-parsing
behaviour.

Modelling conventions, chosen once and used throughout:

* JSON texts are modelled at the value level by the inductive type `JSON`.
  `encoding/json` marshalling of a record becomes a function into `JSON`;
  unmarshalling becomes a function out of `JSON` returning `Except String _`
  (Go's `error` results are represented by the `String` message).
* Go `nil` pointers become `Option.none`; Go `nil` slices become `none` where
  the nil/empty distinction is observable on the wire (the container slots)
  and plain `List`s where `omitempty` makes nil and empty indistinguishable
  (`included`, and the `map` fields).
* Go maps (`map[string]Relationship`, `map[string]interface{}`) become
  association lists; a Go map always has distinct keys, so list values with
  duplicate keys do not correspond to any Go state.
* `json.RawMessage` (the opaque `attributes` payload) is a `JSON` value; a nil
  `RawMessage` and the bytes `null` both marshal to the JSON null literal and
  are both represented by `JSON.null`.
* Struct-field matching during unmarshalling is modelled on the exact member
  name (Go additionally accepts a case-insensitive fallback, which no encoded
  document ever needs); duplicate members fold left-to-right, as in Go.
-/

namespace Jsonapi

/-- A JSON value.  This is the interchange form between the marshalling and
unmarshalling functions modelled from `data_structs.go`. -/
inductive JSON where
  | null
  | bool (b : Bool)
  | num (n : Int)
  | str (s : String)
  | arr (elems : List JSON)
  | obj (members : List (String × JSON))
deriving Inhabited

/-- First-match lookup in an association list (a Go map read `m[k]`). -/
def lookupA [DecidableEq κ] (k : κ) : List (κ × α) → Option α
  | [] => none
  | (k', v) :: rest => if k = k' then some v else lookupA k rest

/-- Overwriting insert in an association list (a Go map write `m[k] = v`):
replaces the value at an existing key in place, otherwise appends. -/
def insertA [DecidableEq κ] (k : κ) (v : α) : List (κ × α) → List (κ × α)
  | [] => [(k, v)]
  | (k', v') :: rest => if k' = k then (k, v) :: rest else (k', v') :: insertA k v rest

/-- The first byte of the `encoding/json` serialization of a value: objects
open with a left brace, arrays with a left bracket, strings with a quote,
numbers with a minus sign or their leading digit, and the literals
`null`/`true`/`false` with their first letter.  Go's
`bytes.HasPrefix(payload, objectSuffix)` with the one-byte prefix `"{"` is
exactly an equality test on this first byte, and likewise for `arraySuffix`. -/
def JSON.firstByte : JSON → Char
  | .null => 'n'
  | .bool true => 't'
  | .bool false => 'f'
  | .num n => if n < 0 then '-' else (Nat.toDigits 10 n.toNat).headD '0'
  | .str _ => '"'
  | .arr _ => '['
  | .obj _ => '\x7b'

/-- Whether a value is the JSON null literal (`encoding/json` treats a null
specially when decoding into a pointer: the pointer is set to nil and no
`UnmarshalJSON` method is invoked). -/
def JSON.isNull : JSON → Bool
  | .null => true
  | _ => false

/-- `var objectSuffix = []byte("{")`, as the single byte it consists of. -/
def objectSuffix : Char := '\x7b'

/-- `var arraySuffix = []byte("[")`, as the single byte it consists of. -/
def arraySuffix : Char := '['

/-- `Links` — six optional (`omitempty`) link strings; the Go zero value of
every field is the empty string, which is what `omitempty` omits. -/
structure Links where
  self : String
  related : String
  first : String
  previous : String
  next : String
  last : String
deriving DecidableEq

instance : Inhabited Links := ⟨⟨"", "", "", "", "", ""⟩⟩

/-- `RelationshipData` — one reference, `type` and `id`, neither omitted. -/
structure RelationshipData where
  type : String
  id : String
deriving DecidableEq

instance : Inhabited RelationshipData := ⟨⟨"", ""⟩⟩

/-- `RelationshipDataContainer` — `DataObject *RelationshipData` and
`DataArray []RelationshipData`; `none` is the Go nil pointer / nil slice. -/
structure RelationshipDataContainer where
  dataObject : Option RelationshipData
  dataArray : Option (List RelationshipData)
deriving DecidableEq

instance : Inhabited RelationshipDataContainer := ⟨⟨none, none⟩⟩

/-- `Relationship` — optional links, optional reference container
(`*RelationshipDataContainer`, `omitempty`), free-form meta map. -/
structure Relationship where
  links : Option Links
  data : Option RelationshipDataContainer
  meta : List (String × JSON)

instance : Inhabited Relationship := ⟨⟨none, none, []⟩⟩

/-- `Data` — a resource object: `type`, `id`, opaque `attributes`
(`json.RawMessage`), `relationships` map (`omitempty`), optional links. -/
structure Data where
  type : String
  id : String
  attributes : JSON
  relationships : List (String × Relationship)
  links : Option Links

instance : Inhabited Data := ⟨⟨"", "", .null, [], none⟩⟩

/-- `DataContainer` — `DataObject *Data` and `DataArray []Data`. -/
structure DataContainer where
  dataObject : Option Data
  dataArray : Option (List Data)

instance : Inhabited DataContainer := ⟨⟨none, none⟩⟩

/-- `Document` — top-level envelope.  `data` carries no `omitempty` and is a
`*DataContainer`; a nil pointer and a pointer to an all-nil container both
marshal to `"data": null`, and unmarshalling `null` yields the nil pointer, so
the slot is modelled as `Option DataContainer` with `none` for the nil
pointer. -/
structure Document where
  links : Option Links
  data : Option DataContainer
  included : List Data
  meta : List (String × JSON)

instance : Inhabited Document := ⟨⟨none, none, [], []⟩⟩

/-- One `omitempty` string member: omitted when the value is empty. -/
def omitemptyStr (k : String) (v : String) : List (String × JSON) :=
  if v = "" then [] else [(k, JSON.str v)]

/-- The members of the JSON object a `Links` value marshals to. -/
def linksMembers (l : Links) : List (String × JSON) :=
  omitemptyStr "self" l.self ++ omitemptyStr "related" l.related ++
  omitemptyStr "first" l.first ++ omitemptyStr "prev" l.previous ++
  omitemptyStr "next" l.next ++ omitemptyStr "last" l.last

/-- Derived marshalling of `Links`. -/
def Links.toJSON (l : Links) : JSON := .obj (linksMembers l)

/-- Derived marshalling of `RelationshipData`. -/
def RelationshipData.toJSON (d : RelationshipData) : JSON :=
  .obj [("type", .str d.type), ("id", .str d.id)]

/-- `RelationshipDataContainer.MarshalJSON`: the `DataArray` field when it is
non-nil, otherwise the `DataObject` field (`null` for a nil pointer). -/
def RelationshipDataContainer.marshalJSON (c : RelationshipDataContainer) : JSON :=
  match c.dataArray with
  | some xs => .arr (xs.map RelationshipData.toJSON)
  | none =>
    match c.dataObject with
    | some d => d.toJSON
    | none => .null

/-- The members of the JSON object a `Relationship` marshals to: `links`
(`omitempty` pointer), `data` (`omitempty` pointer, marshalled by
`RelationshipDataContainer.MarshalJSON` when present), `meta` (`omitempty`
map, omitted when empty). -/
def relationshipMembers (r : Relationship) : List (String × JSON) :=
  (match r.links with
   | none => []
   | some l => [("links", l.toJSON)]) ++
  (match r.data with
   | none => []
   | some c => [("data", c.marshalJSON)]) ++
  (if r.meta.isEmpty then [] else [("meta", .obj r.meta)])

/-- Derived marshalling of `Relationship`. -/
def Relationship.toJSON (r : Relationship) : JSON := .obj (relationshipMembers r)

/-- The members of the JSON object a `Data` (resource object) marshals to:
`type`, `id` and `attributes` always, `relationships` when the map is
non-empty, `links` when the pointer is non-nil. -/
def dataMembers (d : Data) : List (String × JSON) :=
  [("type", .str d.type), ("id", .str d.id), ("attributes", d.attributes)] ++
  (if d.relationships.isEmpty then []
   else [("relationships", .obj (d.relationships.map fun kv => (kv.1, kv.2.toJSON)))]) ++
  (match d.links with
   | none => []
   | some l => [("links", l.toJSON)])

/-- Derived marshalling of `Data`. -/
def Data.toJSON (d : Data) : JSON := .obj (dataMembers d)

/-- `DataContainer.MarshalJSON`: the `DataArray` field when it is non-nil,
otherwise the `DataObject` field (`null` for a nil pointer). -/
def DataContainer.marshalJSON (c : DataContainer) : JSON :=
  match c.dataArray with
  | some xs => .arr (xs.map Data.toJSON)
  | none =>
    match c.dataObject with
    | some d => d.toJSON
    | none => .null

/-- The members of the JSON object a `Document` marshals to: `links`
(`omitempty`), `data` always (null for a nil container pointer), `included`
(`omitempty` slice), `meta` (`omitempty` map). -/
def documentMembers (doc : Document) : List (String × JSON) :=
  (match doc.links with
   | none => []
   | some l => [("links", l.toJSON)]) ++
  [("data", match doc.data with
            | none => JSON.null
            | some c => c.marshalJSON)] ++
  (if doc.included.isEmpty then []
   else [("included", .arr (doc.included.map Data.toJSON))]) ++
  (if doc.meta.isEmpty then [] else [("meta", .obj doc.meta)])

/-- Derived marshalling of `Document`. -/
def Document.toJSON (doc : Document) : JSON := .obj (documentMembers doc)

/-- Fold a JSON object's members over a struct value, one field at a time —
the shape of `encoding/json`'s object decoding into a struct.  Unknown keys
are ignored by each `apply` function; the first field error aborts. -/
def decodeFields (apply : α → String → JSON → Except String α) (base : α) :
    List (String × JSON) → Except String α
  | [] => .ok base
  | (k, v) :: rest =>
    match apply base k v with
    | .ok a => decodeFields apply a rest
    | .error e => .error e

/-- Decoding one member into a `Links` struct: a string value stores the
field, a JSON null is a no-op, anything else is a type error, and unknown
keys are ignored. -/
def Links.applyField (l : Links) (k : String) (v : JSON) : Except String Links :=
  if k = "self" then
    match v with
    | .str s => .ok { l with self := s }
    | .null => .ok l
    | _ => .error "json: cannot unmarshal value into field of type string"
  else if k = "related" then
    match v with
    | .str s => .ok { l with related := s }
    | .null => .ok l
    | _ => .error "json: cannot unmarshal value into field of type string"
  else if k = "first" then
    match v with
    | .str s => .ok { l with first := s }
    | .null => .ok l
    | _ => .error "json: cannot unmarshal value into field of type string"
  else if k = "prev" then
    match v with
    | .str s => .ok { l with previous := s }
    | .null => .ok l
    | _ => .error "json: cannot unmarshal value into field of type string"
  else if k = "next" then
    match v with
    | .str s => .ok { l with next := s }
    | .null => .ok l
    | _ => .error "json: cannot unmarshal value into field of type string"
  else if k = "last" then
    match v with
    | .str s => .ok { l with last := s }
    | .null => .ok l
    | _ => .error "json: cannot unmarshal value into field of type string"
  else .ok l

/-- Unmarshal a JSON value into an existing `Links` value (Go merges into the
struct a pointer already points at; `null` is a no-op on a struct). -/
def Links.fromJSONInto (base : Links) : JSON → Except String Links
  | .obj ms => decodeFields Links.applyField base ms
  | .null => .ok base
  | _ => .error "json: cannot unmarshal value into field of type Links"

/-- Decoding one member into a `RelationshipData` struct. -/
def RelationshipData.applyField (d : RelationshipData) (k : String) (v : JSON) :
    Except String RelationshipData :=
  if k = "type" then
    match v with
    | .str s => .ok { d with type := s }
    | .null => .ok d
    | _ => .error "json: cannot unmarshal value into field of type string"
  else if k = "id" then
    match v with
    | .str s => .ok { d with id := s }
    | .null => .ok d
    | _ => .error "json: cannot unmarshal value into field of type string"
  else .ok d

/-- Unmarshal a JSON value into an existing `RelationshipData` value. -/
def RelationshipData.fromJSONInto (base : RelationshipData) :
    JSON → Except String RelationshipData
  | .obj ms => decodeFields RelationshipData.applyField base ms
  | .null => .ok base
  | _ => .error "json: cannot unmarshal value into field of type RelationshipData"

/-- Decode a JSON array into a `[]RelationshipData` slice the way
`encoding/json` does: element `i` is decoded into the existing element `i`
when the slice already has one, into a fresh zero value otherwise, and the
result length is the array length. -/
def decodeRelDataList (base : List RelationshipData) :
    List JSON → Except String (List RelationshipData)
  | [] => .ok []
  | e :: es =>
    match RelationshipData.fromJSONInto (base.headD default) e with
    | .ok d =>
      match decodeRelDataList base.tail es with
      | .ok ds => .ok (d :: ds)
      | .error err => .error err
    | .error err => .error err

/-- `json.Unmarshal(payload, &c.DataArray)` for a `'['`-prefixed payload:
only an array value decodes into a slice. -/
def decodeRelDataArr (base : List RelationshipData) :
    JSON → Except String (List RelationshipData)
  | .arr es => decodeRelDataList base es
  | _ => .error "json: cannot unmarshal value into field of type slice"

/-- `RelationshipDataContainer.UnmarshalJSON`.  The receiver is mutated in Go;
here the updated container is returned together with the error slot.  The
dispatch is exactly the source's: a payload whose first byte is `{` is
unmarshalled into `DataObject`, one whose first byte is `[` into `DataArray`,
and anything else produces the error without touching the receiver. -/
def RelationshipDataContainer.unmarshalJSON (c : RelationshipDataContainer)
    (payload : JSON) : RelationshipDataContainer × Option String :=
  if payload.firstByte = objectSuffix then
    match RelationshipData.fromJSONInto (c.dataObject.getD default) payload with
    | .ok d => ({ c with dataObject := some d }, none)
    | .error e => (c, some e)
  else if payload.firstByte = arraySuffix then
    match decodeRelDataArr (c.dataArray.getD []) payload with
    | .ok ds => ({ c with dataArray := some ds }, none)
    | .error e => (c, some e)
  else
    (c, some "Invalid json for relationship data array/object")

/-- Decode a JSON object into a `map[string]interface{}`: existing entries
are kept, decoded entries are inserted key by key (`interface{}` accepts any
JSON value unchanged). -/
def mergeMeta (base : List (String × JSON)) (ms : List (String × JSON)) :
    List (String × JSON) :=
  ms.foldl (fun acc kv => insertA kv.1 kv.2 acc) base

/-- Decoding one member into a `Relationship` struct. -/
def Relationship.applyField (r : Relationship) (k : String) (v : JSON) :
    Except String Relationship :=
  if k = "links" then
    match v with
    | .null => .ok { r with links := none }
    | .obj ms =>
      match Links.fromJSONInto (r.links.getD default) (.obj ms) with
      | .ok l => .ok { r with links := some l }
      | .error e => .error e
    | _ => .error "json: cannot unmarshal value into field of type Links"
  else if k = "data" then
    if v.isNull then .ok { r with data := none }
    else
      match RelationshipDataContainer.unmarshalJSON (r.data.getD default) v with
      | (c, none) => .ok { r with data := some c }
      | (_, some e) => .error e
  else if k = "meta" then
    match v with
    | .null => .ok { r with meta := [] }
    | .obj ms => .ok { r with meta := mergeMeta r.meta ms }
    | _ => .error "json: cannot unmarshal value into field of type map"
  else .ok r

/-- Unmarshal a JSON value into an existing `Relationship` value. -/
def Relationship.fromJSONInto (base : Relationship) : JSON → Except String Relationship
  | .obj ms => decodeFields Relationship.applyField base ms
  | .null => .ok base
  | _ => .error "json: cannot unmarshal value into field of type Relationship"

/-- Decode a JSON object into a `map[string]Relationship`: each value is
decoded into a fresh zero `Relationship` and stored under its key; existing
entries of the map being decoded into are kept. -/
def decodeRelMap (base : List (String × Relationship)) :
    List (String × JSON) → Except String (List (String × Relationship))
  | [] => .ok base
  | (k, v) :: rest =>
    match Relationship.fromJSONInto default v with
    | .ok r => decodeRelMap (insertA k r base) rest
    | .error e => .error e

/-- Decoding one member into a `Data` struct. -/
def Data.applyField (d : Data) (k : String) (v : JSON) : Except String Data :=
  if k = "type" then
    match v with
    | .str s => .ok { d with type := s }
    | .null => .ok d
    | _ => .error "json: cannot unmarshal value into field of type string"
  else if k = "id" then
    match v with
    | .str s => .ok { d with id := s }
    | .null => .ok d
    | _ => .error "json: cannot unmarshal value into field of type string"
  else if k = "attributes" then
    .ok { d with attributes := v }
  else if k = "relationships" then
    match v with
    | .null => .ok { d with relationships := [] }
    | .obj ms =>
      match decodeRelMap d.relationships ms with
      | .ok m => .ok { d with relationships := m }
      | .error e => .error e
    | _ => .error "json: cannot unmarshal value into field of type map"
  else if k = "links" then
    match v with
    | .null => .ok { d with links := none }
    | .obj ms =>
      match Links.fromJSONInto (d.links.getD default) (.obj ms) with
      | .ok l => .ok { d with links := some l }
      | .error e => .error e
    | _ => .error "json: cannot unmarshal value into field of type Links"
  else .ok d

/-- Unmarshal a JSON value into an existing `Data` value. -/
def Data.fromJSONInto (base : Data) : JSON → Except String Data
  | .obj ms => decodeFields Data.applyField base ms
  | .null => .ok base
  | _ => .error "json: cannot unmarshal value into field of type Data"

/-- Decode a JSON array into a `[]Data` slice (see `decodeRelDataList`). -/
def decodeDataList (base : List Data) : List JSON → Except String (List Data)
  | [] => .ok []
  | e :: es =>
    match Data.fromJSONInto (base.headD default) e with
    | .ok d =>
      match decodeDataList base.tail es with
      | .ok ds => .ok (d :: ds)
      | .error err => .error err
    | .error err => .error err

/-- `json.Unmarshal(payload, &c.DataArray)` for a `'['`-prefixed payload. -/
def decodeDataArr (base : List Data) : JSON → Except String (List Data)
  | .arr es => decodeDataList base es
  | _ => .error "json: cannot unmarshal value into field of type slice"

/-- `DataContainer.UnmarshalJSON`: identical dispatch to
`RelationshipDataContainer.unmarshalJSON`, over `Data` elements, with the
source's own error message. -/
def DataContainer.unmarshalJSON (c : DataContainer) (payload : JSON) :
    DataContainer × Option String :=
  if payload.firstByte = objectSuffix then
    match Data.fromJSONInto (c.dataObject.getD default) payload with
    | .ok d => ({ c with dataObject := some d }, none)
    | .error e => (c, some e)
  else if payload.firstByte = arraySuffix then
    match decodeDataArr (c.dataArray.getD []) payload with
    | .ok ds => ({ c with dataArray := some ds }, none)
    | .error e => (c, some e)
  else
    (c, some "expected a JSON encoded object or array")

/-- Decoding one member into a `Document` struct.  For the `data` member,
`encoding/json` sets the `*DataContainer` pointer to nil on a JSON null
without invoking `UnmarshalJSON`; for any other value it allocates the
container if needed and calls `DataContainer.UnmarshalJSON`, whose error
aborts the whole document decode. -/
def Document.applyField (doc : Document) (k : String) (v : JSON) :
    Except String Document :=
  if k = "links" then
    match v with
    | .null => .ok { doc with links := none }
    | .obj ms =>
      match Links.fromJSONInto (doc.links.getD default) (.obj ms) with
      | .ok l => .ok { doc with links := some l }
      | .error e => .error e
    | _ => .error "json: cannot unmarshal value into field of type Links"
  else if k = "data" then
    if v.isNull then .ok { doc with data := none }
    else
      match DataContainer.unmarshalJSON (doc.data.getD default) v with
      | (c, none) => .ok { doc with data := some c }
      | (_, some e) => .error e
  else if k = "included" then
    match v with
    | .null => .ok { doc with included := [] }
    | .arr es =>
      match decodeDataList doc.included es with
      | .ok ds => .ok { doc with included := ds }
      | .error e => .error e
    | _ => .error "json: cannot unmarshal value into field of type slice"
  else if k = "meta" then
    match v with
    | .null => .ok { doc with meta := [] }
    | .obj ms => .ok { doc with meta := mergeMeta doc.meta ms }
    | _ => .error "json: cannot unmarshal value into field of type map"
  else .ok doc

/-- Unmarshal a JSON value into an existing `Document` value. -/
def Document.fromJSONInto (base : Document) : JSON → Except String Document
  | .obj ms => decodeFields Document.applyField base ms
  | .null => .ok base
  | _ => .error "json: cannot unmarshal value into field of type Document"

/-- `json.Unmarshal(payload, &doc)` into a fresh zero `Document`. -/
def Document.fromJSON (payload : JSON) : Except String Document :=
  Document.fromJSONInto default payload

/-- Modelled from the spec: the reflected view of the host value that the
helpers `getType`/`getValue` (which are not part of `data_structs.go`)
produce — an ordered sequence of struct fields, each with its Go name, its
`json` struct tag when one is declared, and its current value.  Spec §4.2:
the projection engine reads "the host type's declared field-naming metadata"
and "the corresponding field's current value via reflection-like dynamic
access". -/
structure StructField where
  name : String
  tag : Option String
  value : JSON

/-- `CustomObject` — a requested-field allow-list plus the host object,
the latter in its reflected form (see `StructField`). -/
structure CustomObject where
  fields : List String
  object : List StructField

/-- Modelled from the spec: `getType(co.Object)` exposes the host's field
metadata (name and tag per field, in declaration order). -/
def getType (object : List StructField) : List StructField := object

/-- Modelled from the spec: `getValue(co.Object)` exposes the host's current
field values for `FieldByName` access. -/
def getValue (object : List StructField) : List StructField := object

/-- The regex `(?i)^([^,]+)(,|$)` applied to a `json` tag: the match succeeds
exactly when the tag has a non-empty comma-free prefix, and the first capture
group is that prefix (everything before the first comma). -/
def tagWireName (tag : String) : Option String :=
  let pre := tag.data.takeWhile (fun c => c ≠ ',')
  if pre.isEmpty then none else some (String.mk pre)

/-- `CustomObject.JSONToStruct`: build the wire-name → Go-field-name resolver
from the host's `json` tags, skipping untagged fields, fields whose tag has
no capturable prefix, and fields whose wire name is `-`. -/
def CustomObject.JSONToStruct (co : CustomObject) : List (String × String) :=
  (getType co.object).foldl
    (fun res f =>
      match f.tag with
      | some tag =>
        match tagWireName tag with
        | some w => if w ≠ "-" then insertA w f.name res else res
        | none => res
      | none => res)
    []

/-- `reflect.Value.FieldByName`: the value of the struct field with the given
Go name (fields of a Go struct have distinct names, so first match). -/
def fieldByName (object : List StructField) (n : String) : Option JSON :=
  (object.find? (fun f => f.name == n)).map (fun f => f.value)

/-- One iteration of the loop in `CustomObject.MarshalJSON`: look the
requested name `f` up in the resolver (`dict[f]`, the empty string when
absent), and when the result is a non-empty Go field name store that field's
current value in the attribute map under `f`; otherwise leave the map
alone. -/
def projStep (dict : List (String × String)) (host : List StructField)
    (obj : List (String × JSON)) (f : String) : List (String × JSON) :=
  let g := (lookupA f dict).getD ""
  if g ≠ "" then insertA f ((fieldByName host g).getD JSON.null) obj else obj

/-- The members of the `ObjectAttributes` map built by
`CustomObject.MarshalJSON`: the requested field names folded through
`projStep`, starting from the empty map. -/
def CustomObject.projectionMembers (co : CustomObject) : List (String × JSON) :=
  co.fields.foldl (projStep co.JSONToStruct (getValue co.object)) []

/-- `CustomObject.MarshalJSON` — the projected attribute map, marshalled as a
JSON object (`json.Marshal` of a non-nil map never yields `null`). -/
def CustomObject.marshalJSON (co : CustomObject) : JSON :=
  .obj co.projectionMembers

/-- Go strings in the query-parsing component are modelled as their byte
(character) lists, so that splitting and joining stay elementary. -/
abbrev GoStr := List Char

/-- `strings.Join(v, ",")`. -/
def stringsJoinComma : List GoStr → GoStr
  | [] => []
  | [v] => v
  | v :: vs => v ++ ',' :: stringsJoinComma vs

/-- `strings.Split(s, ",")`: the comma-separated pieces of `s`; the empty
string yields one empty piece, never an empty list. -/
def stringsSplitComma : GoStr → List GoStr
  | [] => [[]]
  | c :: rest =>
    if c = ',' then [] :: stringsSplitComma rest
    else
      match stringsSplitComma rest with
      | h :: t => (c :: h) :: t
      | [] => [[c]]

/-- The regex `(?i)^fields\[([^\]]+)]$` applied to a whole query key: the
key must be `fields[` (matched case-insensitively) followed by a non-empty
bracket-free capture and a closing bracket; the capture is returned with its
original case. -/
def fieldsCapture (k : GoStr) : Option GoStr :=
  let pre := k.take 7
  let rest := k.drop 7
  if pre.map Char.toLower = ['f', 'i', 'e', 'l', 'd', 's', '['] ∧
      rest.getLast? = some ']' ∧ rest.dropLast ≠ [] ∧ ']' ∉ rest.dropLast then
    some rest.dropLast
  else none

/-- `FilterFields` — `map[string][]string` from type name to requested field
names, as an association list. -/
abbrev FilterFields := List (GoStr × List GoStr)

/-- `url.Values` — `map[string][]string`; Go iterates it in an unspecified
order, modelled here as the list order of the argument. -/
abbrev URLValues := List (GoStr × List GoStr)

/-- `FilterFields.ParseQuery`: for every query key matching
`fieldsCapture`, join that key's values with commas, split on commas, and
store the pieces in the map under the captured type name; other keys are
ignored. -/
def FilterFields.ParseQuery (f : FilterFields) (q : URLValues) : FilterFields :=
  q.foldl
    (fun f kv =>
      match fieldsCapture kv.1 with
      | some t => insertA t (stringsSplitComma (stringsJoinComma kv.2)) f
      | none => f)
    f

/-- The values of the last query entry whose key captures `t` — the entry
whose write survives in the map after `ParseQuery`. -/
def lastCaptureValues (q : URLValues) (t : GoStr) : Option (List GoStr) :=
  ((q.filter (fun kv => fieldsCapture kv.1 == some t)).getLast?).map Prod.snd

/-- Distinctness of the keys of an association list — automatic for any list
that represents an actual Go map. -/
def nodupKeys [DecidableEq κ] (l : List (κ × α)) : Prop :=
  (l.map Prod.fst).Nodup

instance [DecidableEq κ] (l : List (κ × α)) : Decidable (nodupKeys l) :=
  inferInstanceAs (Decidable (List.Nodup _))

/-- Exactly one slot of a reference container is populated: the shape every
container produced by a successful decode has, and the shape the encode/decode
pair preserves. -/
def RelationshipDataContainer.oneSlot (c : RelationshipDataContainer) : Prop :=
  c.dataObject.isSome ≠ c.dataArray.isSome

instance (c : RelationshipDataContainer) : Decidable c.oneSlot :=
  inferInstanceAs (Decidable (_ ≠ _))

/-- Exactly one slot of a resource container is populated. -/
def DataContainer.oneSlot (c : DataContainer) : Prop :=
  c.dataObject.isSome ≠ c.dataArray.isSome

instance (c : DataContainer) : Decidable c.oneSlot :=
  inferInstanceAs (Decidable (_ ≠ _))

/-- A `Relationship` is in decodable (canonical) form: its reference
container, when present, has exactly one slot set, and its meta map has
distinct keys. -/
def Relationship.wf (r : Relationship) : Prop :=
  (match r.data with
   | none => True
   | some c => c.oneSlot) ∧ nodupKeys r.meta

instance (r : Relationship) : Decidable r.wf := by
  unfold Relationship.wf
  cases r.data <;> dsimp only <;> infer_instance

/-- A `Data` (resource object) is in decodable form: its relationships map
has distinct keys and every relationship in it is in decodable form. -/
def Data.wf (d : Data) : Prop :=
  nodupKeys d.relationships ∧ ∀ kv ∈ d.relationships, Relationship.wf kv.2

instance (d : Data) : Decidable d.wf := by
  unfold Data.wf; infer_instance

/-- A `Document` is in decodable form: the primary data is unset, a single
resource, or a sequence of resources (never a present container with both or
neither slot set), every resource it carries is in decodable form, and its
meta map has distinct keys. -/
def Document.wf (doc : Document) : Prop :=
  (match doc.data with
   | none => True
   | some c =>
     c.oneSlot ∧ (∀ d, c.dataObject = some d → d.wf) ∧
       (∀ ds, c.dataArray = some ds → ∀ d ∈ ds, d.wf)) ∧
  (∀ d ∈ doc.included, d.wf) ∧ nodupKeys doc.meta

instance (doc : Document) : Decidable doc.wf := by
  unfold Document.wf
  cases doc.data <;> dsimp only <;> infer_instance

/-- The relationship of the round-trip counterexample: its container is
present but has neither slot set, so it marshals to `"data": null`, which
unmarshals back to an absent container. -/
def relCex : Relationship :=
  { links := none, data := some { dataObject := none, dataArray := none }, meta := [] }

/-- A document whose primary data is a single resource object carrying
`relCex`. -/
def docCex : Document :=
  { links := none
    data := some
      { dataObject := some
          { type := "a", id := "1", attributes := .null
            relationships := [("rel", relCex)], links := none }
        dataArray := none }
    included := []
    meta := [] }

/-- A concrete well-formed document exercising the single-resource shape with
links, a populated relationship, included resources and metadata. -/
def docWit : Document :=
  { links := some { self := "s", related := "", first := "", previous := "", next := "", last := "" }
    data := some
      { dataObject := some
          { type := "articles", id := "7", attributes := .obj [("title", .str "t")]
            relationships :=
              [("author",
                { links := none
                  data := some
                    { dataObject := some { type := "people", id := "9" }, dataArray := none }
                  meta := [] }),
               ("tags",
                { links := none
                  data := some { dataObject := none, dataArray := some [] }
                  meta := [("n", .num 2)] })]
            links := none }
        dataArray := none }
    included := [{ type := "people", id := "9", attributes := .null, relationships := [], links := none }]
    meta := [("count", .num 1)] }

/-- The host object of the spec's projection example: a field with wire name
`name`, a field excluded by the `-` tag, and an untagged field. -/
def hostWit : List StructField :=
  [{ name := "Name", tag := some "name", value := .str "n" },
   { name := "Secret", tag := some "-", value := .str "s" },
   { name := "Hidden", tag := none, value := .num 4 }]

/-- The spec's projection request: `project(host, [name, secret, missing])`. -/
def coWit : CustomObject :=
  { fields := ["name", "secret", "missing"], object := hostWit }

/-- A projection request whose every name is unresolvable against `hostWit`. -/
def coWit10 : CustomObject :=
  { fields := ["secret", "missing"], object := hostWit }

/-- The query of the fieldset example:
`fields[articles]=title,body&fields[Articles]=author`. -/
def qCase : URLValues :=
  [("fields[articles]".data, ["title,body".data]),
   ("fields[Articles]".data, ["author".data])]

/-- A same-capture variant: `fields[articles]=title,body&FIELDS[articles]=author`
— both keys capture the identical string `articles`. -/
def qSame : URLValues :=
  [("fields[articles]".data, ["title,body".data]),
   ("FIELDS[articles]".data, ["author".data])]

theorem lookupA_insertA [DecidableEq κ] (l : List (κ × α)) (k k' : κ) (v : α) :
    lookupA k' (insertA k v l) = if k' = k then some v else lookupA k' l := by
  induction l with
  | nil => by_cases h : k' = k <;> simp [insertA, lookupA, h]
  | cons p rest ih =>
    obtain ⟨pk, pv⟩ := p
    by_cases hpk : pk = k
    · subst hpk
      by_cases h : k' = pk <;> simp [insertA, lookupA, h]
    · by_cases h : k' = pk
      · subst h
        simp [insertA, lookupA, hpk, Ne.symm hpk]
      · simp [insertA, lookupA, hpk, h, ih]

theorem insertA_of_notMem [DecidableEq κ] (l : List (κ × α)) (k : κ) (v : α)
    (h : k ∉ l.map Prod.fst) : insertA k v l = l ++ [(k, v)] := by
  induction l with
  | nil => simp [insertA]
  | cons p rest ih =>
    obtain ⟨pk, pv⟩ := p
    simp only [List.map, List.mem_cons] at h
    push_neg at h
    simp [insertA, Ne.symm h.1, ih h.2]

theorem decodeFields_append (apply : α → String → JSON → Except String α) (base : α)
    (xs ys : List (String × JSON)) :
    decodeFields apply base (xs ++ ys) =
      match decodeFields apply base xs with
      | .ok a => decodeFields apply a ys
      | .error e => .error e := by
  induction xs generalizing base with
  | nil => simp [decodeFields]
  | cons p rest ih =>
    obtain ⟨k, v⟩ := p
    simp only [List.cons_append, decodeFields]
    cases apply base k v with
    | ok a => exact ih a
    | error e => rfl

theorem links_decode_encode (l : Links) :
    Links.fromJSONInto default l.toJSON = .ok l := by
  obtain ⟨s, r, f, p, n, la⟩ := l
  simp only [Links.toJSON, Links.fromJSONInto, linksMembers, omitemptyStr]
  by_cases hs : s = "" <;> by_cases hr : r = "" <;> by_cases hf : f = "" <;>
    by_cases hp : p = "" <;> by_cases hn : n = "" <;> by_cases hl : la = "" <;>
    simp_all [decodeFields, Links.applyField, default]

theorem reldata_decode_encode (d : RelationshipData) :
    RelationshipData.fromJSONInto default d.toJSON = .ok d := by
  obtain ⟨t, i⟩ := d
  rfl

theorem default_links : (default : Links) = ⟨"", "", "", "", "", ""⟩ := rfl

theorem default_reldata : (default : RelationshipData) = ⟨"", ""⟩ := rfl

theorem default_relcontainer : (default : RelationshipDataContainer) = ⟨none, none⟩ := rfl

theorem default_relationship : (default : Relationship) = ⟨none, none, []⟩ := rfl

theorem default_data : (default : Data) = ⟨"", "", .null, [], none⟩ := rfl

theorem default_datacontainer : (default : DataContainer) = ⟨none, none⟩ := rfl

theorem default_document : (default : Document) = ⟨none, none, [], []⟩ := rfl

theorem decodeRelDataList_map (xs : List RelationshipData) :
    decodeRelDataList [] (xs.map RelationshipData.toJSON) = .ok xs := by
  induction xs with
  | nil => rfl
  | cons x rest ih =>
    simp only [List.map, decodeRelDataList, List.headD, List.tail]
    rw [reldata_decode_encode x]
    simp [ih]

theorem relcontainer_unmarshal_marshal (c : RelationshipDataContainer)
    (h : c.oneSlot) :
    RelationshipDataContainer.unmarshalJSON default c.marshalJSON = (c, none) := by
  obtain ⟨o, a⟩ := c
  rw [default_relcontainer]
  cases o with
  | none =>
    cases a with
    | none => simp [RelationshipDataContainer.oneSlot] at h
    | some xs =>
      simp only [RelationshipDataContainer.marshalJSON, RelationshipDataContainer.unmarshalJSON,
        JSON.firstByte, objectSuffix, arraySuffix]
      simp only [if_true]
      simp only [Option.getD, decodeRelDataArr, decodeRelDataList_map xs]
      rw [if_neg (show ¬('[' = '\x7b') from by decide)]
  | some d =>
    cases a with
    | some xs => simp [RelationshipDataContainer.oneSlot] at h
    | none =>
      simp only [RelationshipDataContainer.marshalJSON, RelationshipData.toJSON,
        RelationshipDataContainer.unmarshalJSON, JSON.firstByte, objectSuffix, arraySuffix]
      simp only [if_true]
      have h1 := reldata_decode_encode d
      simp only [RelationshipData.toJSON, default_reldata] at h1
      simp only [Option.getD, default_reldata, h1]

theorem foldl_insertA_disjoint [DecidableEq κ] (ms : List (κ × α)) (acc : List (κ × α))
    (hd : ∀ k ∈ ms.map Prod.fst, k ∉ acc.map Prod.fst)
    (hn : (ms.map Prod.fst).Nodup) :
    ms.foldl (fun a kv => insertA kv.1 kv.2 a) acc = acc ++ ms := by
  induction ms generalizing acc with
  | nil => simp
  | cons p rest ih =>
    obtain ⟨k, v⟩ := p
    simp only [List.foldl]
    rw [insertA_of_notMem acc k v (hd k (by simp))]
    simp only [List.map, List.nodup_cons] at hn
    rw [ih (acc ++ [(k, v)]) ?_ hn.2]
    · simp
    · intro k' hk'
      simp only [List.map_append, List.mem_append, List.map_cons, List.map_nil,
        List.mem_singleton]
      push_neg
      refine ⟨hd k' (by simp [hk']), ?_⟩
      intro hkk
      exact hn.1 (hkk ▸ hk')

theorem mergeMeta_nodup (ms : List (String × JSON)) (hn : nodupKeys ms) :
    mergeMeta [] ms = ms := by
  simpa [mergeMeta] using foldl_insertA_disjoint ms [] (by simp) hn

theorem relationship_decode_encode (r : Relationship) (h : r.wf) :
    Relationship.fromJSONInto default r.toJSON = .ok r := by
  obtain ⟨ln, dt, mt⟩ := r
  obtain ⟨hdt, hmt⟩ := h
  have hlinks : ∀ l : Links, Links.fromJSONInto default (.obj (linksMembers l)) = .ok l := by
    intro l
    simpa [Links.toJSON] using links_decode_encode l
  have hmeta := mergeMeta_nodup mt hmt
  simp only [Relationship.toJSON, Relationship.fromJSONInto, relationshipMembers,
    default_relationship]
  rw [decodeFields_append, decodeFields_append]
  rcases dt with _ | c
  · cases ln with
    | none =>
      cases mt with
      | nil => rfl
      | cons m ms =>
        simp [decodeFields, Relationship.applyField, hmeta]
    | some l =>
      cases mt with
      | nil =>
        simp [decodeFields, Relationship.applyField, Links.toJSON, hlinks l]
      | cons m ms =>
        simp [decodeFields, Relationship.applyField, Links.toJSON, hlinks l, hmeta]
  · have hc := relcontainer_unmarshal_marshal c hdt
    have hnn : c.marshalJSON.isNull = false := by
      obtain ⟨o, a⟩ := c
      rcases o with _ | d <;> rcases a with _ | xs <;>
        simp_all [RelationshipDataContainer.oneSlot, RelationshipDataContainer.marshalJSON,
          RelationshipData.toJSON, JSON.isNull]
    cases ln with
    | none =>
      cases mt with
      | nil =>
        simp [decodeFields, Relationship.applyField, hnn, hc]
      | cons m ms =>
        simp [decodeFields, Relationship.applyField, hnn, hc, hmeta]
    | some l =>
      cases mt with
      | nil =>
        simp [decodeFields, Relationship.applyField, Links.toJSON, hlinks l, hnn, hc]
      | cons m ms =>
        simp [decodeFields, Relationship.applyField, Links.toJSON, hlinks l, hnn, hc, hmeta]

theorem decodeRelMap_disjoint (rels : List (String × Relationship))
    (acc : List (String × Relationship))
    (hd : ∀ k ∈ rels.map Prod.fst, k ∉ acc.map Prod.fst)
    (hn : (rels.map Prod.fst).Nodup)
    (hwf : ∀ kv ∈ rels, Relationship.wf kv.2) :
    decodeRelMap acc (rels.map fun kv => (kv.1, kv.2.toJSON)) = .ok (acc ++ rels) := by
  induction rels generalizing acc with
  | nil => simp [decodeRelMap]
  | cons p rest ih =>
    obtain ⟨k, r⟩ := p
    simp only [List.map_cons, decodeRelMap,
      relationship_decode_encode r (hwf (k, r) (by simp))]
    rw [insertA_of_notMem acc k r (hd k (by simp))]
    simp only [List.map_cons, List.nodup_cons] at hn
    rw [ih (acc ++ [(k, r)]) ?_ hn.2 (fun kv hkv => hwf kv (by simp [hkv]))]
    · simp
    · intro k' hk'
      simp only [List.map_append, List.mem_append, List.map_cons, List.map_nil,
        List.mem_singleton]
      push_neg
      exact ⟨hd k' (by simp [hk']), fun hkk => absurd (hkk ▸ hk') hn.1⟩

theorem data_applyField_type (d : Data) (s : String) :
    Data.applyField d "type" (.str s) = .ok { d with type := s } := rfl

theorem data_applyField_id (d : Data) (s : String) :
    Data.applyField d "id" (.str s) = .ok { d with id := s } := rfl

theorem data_applyField_attributes (d : Data) (v : JSON) :
    Data.applyField d "attributes" v = .ok { d with attributes := v } := rfl

theorem data_applyField_relationships (d : Data) (ms : List (String × JSON)) :
    Data.applyField d "relationships" (.obj ms) =
      match decodeRelMap d.relationships ms with
      | .ok m => .ok { d with relationships := m }
      | .error e => .error e := rfl

theorem data_applyField_links (d : Data) (ms : List (String × JSON)) :
    Data.applyField d "links" (.obj ms) =
      match Links.fromJSONInto (d.links.getD default) (.obj ms) with
      | .ok l => .ok { d with links := some l }
      | .error e => .error e := rfl

theorem data_decode_encode (d : Data) (h : d.wf) :
    Data.fromJSONInto default d.toJSON = .ok d := by
  obtain ⟨t, i, av, rels, ln⟩ := d
  obtain ⟨hnd, hwf⟩ := h
  have hlinks : ∀ l : Links, Links.fromJSONInto default (.obj (linksMembers l)) = .ok l := by
    intro l
    simpa [Links.toJSON] using links_decode_encode l
  have hrels : decodeRelMap [] (rels.map fun kv => (kv.1, kv.2.toJSON)) = .ok rels := by
    simpa using decodeRelMap_disjoint rels [] (by simp) hnd hwf
  simp only [Data.toJSON, Data.fromJSONInto, dataMembers, default_data]
  rw [decodeFields_append, decodeFields_append]
  have h1 : decodeFields Data.applyField ⟨"", "", .null, [], none⟩
      [("type", .str t), ("id", .str i), ("attributes", av)] = .ok ⟨t, i, av, [], none⟩ := by
    simp [decodeFields, data_applyField_type, data_applyField_id, data_applyField_attributes]
  rw [h1]
  cases rels with
  | nil =>
    cases ln with
    | none => rfl
    | some l => simp [decodeFields, data_applyField_links, Links.toJSON, hlinks l]
  | cons p ps =>
    simp only [List.map_cons] at hrels
    cases ln with
    | none => simp [decodeFields, data_applyField_relationships, hrels]
    | some l =>
      simp [decodeFields, data_applyField_relationships, data_applyField_links, Links.toJSON,
        hlinks l, hrels]

theorem decodeDataList_map (xs : List Data) (hwf : ∀ d ∈ xs, d.wf) :
    decodeDataList [] (xs.map Data.toJSON) = .ok xs := by
  induction xs with
  | nil => rfl
  | cons x rest ih =>
    simp only [List.map_cons, decodeDataList, List.headD, List.tail]
    rw [data_decode_encode x (hwf x (by simp))]
    simp [ih (fun d hd => hwf d (by simp [hd]))]

theorem datacontainer_unmarshal_marshal (c : DataContainer) (h : c.oneSlot)
    (hobj : ∀ d, c.dataObject = some d → d.wf)
    (harr : ∀ ds, c.dataArray = some ds → ∀ d ∈ ds, d.wf) :
    DataContainer.unmarshalJSON default c.marshalJSON = (c, none) := by
  obtain ⟨o, a⟩ := c
  rw [default_datacontainer]
  cases o with
  | none =>
    cases a with
    | none => simp [DataContainer.oneSlot] at h
    | some xs =>
      simp only [DataContainer.marshalJSON, DataContainer.unmarshalJSON,
        JSON.firstByte, objectSuffix, arraySuffix]
      simp only [if_true]
      simp only [Option.getD, decodeDataArr, decodeDataList_map xs (harr xs rfl)]
      rw [if_neg (show ¬('[' = '\x7b') from by decide)]
  | some d =>
    cases a with
    | some xs => simp [DataContainer.oneSlot] at h
    | none =>
      simp only [DataContainer.marshalJSON, Data.toJSON,
        DataContainer.unmarshalJSON, JSON.firstByte, objectSuffix, arraySuffix]
      simp only [if_true]
      have h1 := data_decode_encode d (hobj d rfl)
      simp only [Data.toJSON, default_data] at h1
      simp only [Option.getD, default_data, h1]

theorem doc_applyField_links (doc : Document) (ms : List (String × JSON)) :
    Document.applyField doc "links" (.obj ms) =
      match Links.fromJSONInto (doc.links.getD default) (.obj ms) with
      | .ok l => .ok { doc with links := some l }
      | .error e => .error e := rfl

theorem doc_applyField_data (doc : Document) (v : JSON) :
    Document.applyField doc "data" v =
      if v.isNull then .ok { doc with data := none }
      else
        match DataContainer.unmarshalJSON (doc.data.getD default) v with
        | (c, none) => .ok { doc with data := some c }
        | (_, some e) => .error e := rfl

theorem doc_applyField_included (doc : Document) (es : List JSON) :
    Document.applyField doc "included" (.arr es) =
      match decodeDataList doc.included es with
      | .ok ds => .ok { doc with included := ds }
      | .error e => .error e := rfl

theorem doc_applyField_meta (doc : Document) (ms : List (String × JSON)) :
    Document.applyField doc "meta" (.obj ms) =
      .ok { doc with meta := mergeMeta doc.meta ms } := rfl

theorem document_decode_encode_wf (doc : Document) (h : doc.wf) :
    Document.fromJSON doc.toJSON = .ok doc := by
  obtain ⟨ln, dt, inc, mt⟩ := doc
  obtain ⟨hdt, hinc, hmt⟩ := h
  have hlinks : ∀ l : Links, Links.fromJSONInto default (.obj (linksMembers l)) = .ok l := by
    intro l
    simpa [Links.toJSON] using links_decode_encode l
  have hmeta := mergeMeta_nodup mt hmt
  have hincl : decodeDataList [] (inc.map Data.toJSON) = .ok inc := decodeDataList_map inc hinc
  simp only [Document.fromJSON, Document.toJSON, Document.fromJSONInto, documentMembers,
    default_document]
  rw [decodeFields_append, decodeFields_append, decodeFields_append]
  rcases dt with _ | c
  · cases ln with
    | none =>
      cases inc with
      | nil =>
        cases mt with
        | nil => rfl
        | cons m ms => simp [decodeFields, doc_applyField_links, doc_applyField_data, doc_applyField_included, doc_applyField_meta, JSON.isNull, hmeta]
      | cons x xs =>
        simp only [List.map_cons] at hincl
        cases mt with
        | nil => simp [decodeFields, doc_applyField_links, doc_applyField_data, doc_applyField_included, doc_applyField_meta, JSON.isNull, hincl]
        | cons m ms => simp [decodeFields, doc_applyField_links, doc_applyField_data, doc_applyField_included, doc_applyField_meta, JSON.isNull, hincl, hmeta]
    | some l =>
      cases inc with
      | nil =>
        cases mt with
        | nil => simp [decodeFields, doc_applyField_links, doc_applyField_data, doc_applyField_included, doc_applyField_meta, JSON.isNull, Links.toJSON, hlinks l]
        | cons m ms =>
          simp [decodeFields, doc_applyField_links, doc_applyField_data, doc_applyField_included, doc_applyField_meta, JSON.isNull, Links.toJSON, hlinks l, hmeta]
      | cons x xs =>
        simp only [List.map_cons] at hincl
        cases mt with
        | nil =>
          simp [decodeFields, doc_applyField_links, doc_applyField_data, doc_applyField_included, doc_applyField_meta, JSON.isNull, Links.toJSON, hlinks l, hincl]
        | cons m ms =>
          simp [decodeFields, doc_applyField_links, doc_applyField_data, doc_applyField_included, doc_applyField_meta, JSON.isNull, Links.toJSON, hlinks l,
            hincl, hmeta]
  · have hc := datacontainer_unmarshal_marshal c hdt.1 hdt.2.1 hdt.2.2
    have hnn : c.marshalJSON.isNull = false := by
      obtain ⟨o, a⟩ := c
      rcases o with _ | d <;> rcases a with _ | xs <;>
        simp_all [DataContainer.oneSlot, DataContainer.marshalJSON, Data.toJSON, JSON.isNull]
    cases ln with
    | none =>
      cases inc with
      | nil =>
        cases mt with
        | nil => simp [decodeFields, doc_applyField_links, doc_applyField_data, doc_applyField_included, doc_applyField_meta, hnn, hc]
        | cons m ms => simp [decodeFields, doc_applyField_links, doc_applyField_data, doc_applyField_included, doc_applyField_meta, hnn, hc, hmeta]
      | cons x xs =>
        simp only [List.map_cons] at hincl
        cases mt with
        | nil => simp [decodeFields, doc_applyField_links, doc_applyField_data, doc_applyField_included, doc_applyField_meta, hnn, hc, hincl]
        | cons m ms => simp [decodeFields, doc_applyField_links, doc_applyField_data, doc_applyField_included, doc_applyField_meta, hnn, hc, hincl, hmeta]
    | some l =>
      cases inc with
      | nil =>
        cases mt with
        | nil => simp [decodeFields, doc_applyField_links, doc_applyField_data, doc_applyField_included, doc_applyField_meta, Links.toJSON, hlinks l, hnn, hc]
        | cons m ms =>
          simp [decodeFields, doc_applyField_links, doc_applyField_data, doc_applyField_included, doc_applyField_meta, Links.toJSON, hlinks l, hnn, hc, hmeta]
      | cons x xs =>
        simp only [List.map_cons] at hincl
        cases mt with
        | nil =>
          simp [decodeFields, doc_applyField_links, doc_applyField_data, doc_applyField_included, doc_applyField_meta, Links.toJSON, hlinks l, hnn, hc, hincl]
        | cons m ms =>
          simp [decodeFields, doc_applyField_links, doc_applyField_data, doc_applyField_included, doc_applyField_meta, Links.toJSON, hlinks l, hnn, hc,
            hincl, hmeta]

theorem lookupA_projStep (dict : List (String × String)) (host : List StructField)
    (obj : List (String × JSON)) (f n : String) :
    lookupA n (projStep dict host obj f) =
      if n = f ∧ (lookupA f dict).getD "" ≠ "" then
        some ((fieldByName host ((lookupA f dict).getD "")).getD JSON.null)
      else lookupA n obj := by
  unfold projStep
  by_cases hf : (lookupA f dict).getD "" ≠ ""
  · rw [if_pos hf, lookupA_insertA]
    by_cases hn : n = f <;> simp [hn, hf]
  · rw [if_neg hf]
    by_cases hn : n = f <;> simp [hn, hf]

theorem foldl_projStep_lookup (dict : List (String × String)) (host : List StructField)
    (fields : List String) (acc : List (String × JSON)) (n : String) :
    lookupA n (fields.foldl (projStep dict host) acc) =
      if n ∈ fields ∧ (lookupA n dict).getD "" ≠ "" then
        some ((fieldByName host ((lookupA n dict).getD "")).getD JSON.null)
      else lookupA n acc := by
  induction fields generalizing acc with
  | nil => simp
  | cons f fs ih =>
    simp only [List.foldl_cons]
    rw [ih, lookupA_projStep]
    by_cases h1 : n ∈ fs ∧ (lookupA n dict).getD "" ≠ ""
    · simp [h1, h1.1]
    · by_cases h2 : n = f
      · subst h2
        by_cases h3 : (lookupA n dict).getD "" ≠ "" <;> simp [h1, h3]
      · simp [h1, h2, List.mem_cons]

theorem foldl_projStep_skip (dict : List (String × String)) (host : List StructField)
    (fields : List String) (acc : List (String × JSON))
    (h : ∀ f ∈ fields, (lookupA f dict).getD "" = "") :
    fields.foldl (projStep dict host) acc = acc := by
  induction fields generalizing acc with
  | nil => simp
  | cons f fs ih =>
    simp only [List.foldl_cons, projStep, h f (by simp)]
    exact ih acc (fun f' hf' => h f' (by simp [hf']))

theorem parseQuery_lookup (f : FilterFields) (q : URLValues) (t : GoStr) :
    lookupA t (FilterFields.ParseQuery f q) =
      match lastCaptureValues q t with
      | some vs => some (stringsSplitComma (stringsJoinComma vs))
      | none => lookupA t f := by
  induction q using List.reverseRecOn with
  | nil => simp [FilterFields.ParseQuery, lastCaptureValues]
  | append_singleton q kv ih =>
    obtain ⟨k, vs⟩ := kv
    simp only [FilterFields.ParseQuery, List.foldl_append, List.foldl_cons, List.foldl_nil]
    simp only [FilterFields.ParseQuery] at ih
    rcases hcap : fieldsCapture k with _ | t'
    · simp only [hcap, ih]
      simp [lastCaptureValues, List.filter_append, hcap]
    · by_cases ht : t' = t
      · subst ht
        simp only [hcap, lookupA_insertA, if_pos rfl]
        simp [lastCaptureValues, List.filter_append, hcap]
      · have hbeq : (fieldsCapture k == some t) = false := by simp [hcap, ht]
        have hlast : lastCaptureValues (q ++ [(k, vs)]) t = lastCaptureValues q t := by
          simp [lastCaptureValues, List.filter_append, hbeq]
        simp only [hcap]
        rw [lookupA_insertA, if_neg (fun h => ht h.symm), ih, hlast]

/-- C1: for both polymorphic containers (`DataContainer` and
`RelationshipDataContainer`), if the `DataArray` (Many) slot is set — even to
an empty sequence — `MarshalJSON` yields a JSON array, and if neither slot is
set it yields the JSON null literal (in particular never an empty array); the
dispatch reads only whether `DataArray` is nil, not whether it is empty. -/
theorem container_marshal_many_or_null :
    (∀ (c : DataContainer) (xs : List Data), c.dataArray = some xs →
        c.marshalJSON = JSON.arr (xs.map Data.toJSON)) ∧
    (∀ c : DataContainer, c.dataArray = none → c.dataObject = none →
        c.marshalJSON = JSON.null) ∧
    (∀ (c : RelationshipDataContainer) (xs : List RelationshipData), c.dataArray = some xs →
        c.marshalJSON = JSON.arr (xs.map RelationshipData.toJSON)) ∧
    (∀ c : RelationshipDataContainer, c.dataArray = none → c.dataObject = none →
        c.marshalJSON = JSON.null) := by
  refine ⟨fun c xs h => ?_, fun c h1 h2 => ?_, fun c xs h => ?_, fun c h1 h2 => ?_⟩
  · simp [DataContainer.marshalJSON, h]
  · simp [DataContainer.marshalJSON, h1, h2]
  · simp [RelationshipDataContainer.marshalJSON, h]
  · simp [RelationshipDataContainer.marshalJSON, h1, h2]

/-- Witness for C1: a container with `DataArray` explicitly empty encodes to
`[]`, and a container with both slots unset encodes to `null`. -/
theorem container_marshal_many_or_null_witness :
    DataContainer.marshalJSON ⟨none, some []⟩ = JSON.arr [] ∧
    RelationshipDataContainer.marshalJSON ⟨none, none⟩ = JSON.null :=
  ⟨by simpa using container_marshal_many_or_null.1 ⟨none, some []⟩ [] rfl,
   container_marshal_many_or_null.2.2.2 ⟨none, none⟩ rfl rfl⟩

/-- C2 counterexample: `docCex` has its primary data set to a single resource
object, yet `decode(encode(docCex)) ≠ docCex` — the resource carries a
relationship whose reference container is present with both slots nil, which
marshals to `"data": null` and unmarshals back to an absent container. -/
theorem document_roundtrip_cex :
    Document.fromJSON (Document.toJSON docCex) ≠ Except.ok docCex := by
  have heval : Document.fromJSON (Document.toJSON docCex) =
      Except.ok
        { links := none
          data := some
            { dataObject := some
                { type := "a", id := "1", attributes := .null
                  relationships := [("rel", { links := none, data := none, meta := [] })]
                  links := none }
              dataArray := none }
          included := []
          meta := [] } := rfl
  rw [heval]
  simp [docCex, relCex]

/-- C2 (amended): `decode(encode(d)) = d` holds for every document whose
primary data is unset, a single resource object, or a sequence of resource
objects (one container slot set, never both), provided every relationship's
reference container present in the document also has exactly one slot set and
the (inherently distinct-keyed) maps have distinct keys in their list
representation. -/
theorem document_roundtrip_wf (d : Document) (h : d.wf) :
    Document.fromJSON (Document.toJSON d) = Except.ok d :=
  document_decode_encode_wf d h

/-- Witness for C2 (amended) at a concrete single-resource document with
links, populated and empty-array relationships, included resources and
metadata. -/
theorem document_roundtrip_wf_witness :
    Document.wf docWit ∧ Document.fromJSON (Document.toJSON docWit) = Except.ok docWit :=
  ⟨by decide, document_roundtrip_wf docWit (by decide)⟩

/-- C3: both containers' `UnmarshalJSON` dispatch on the payload's leading
byte alone — a `{` payload is decoded into the `DataObject` (Single) slot and
leaves `DataArray` untouched, a `[` payload into the `DataArray` (Many) slot
leaving `DataObject` untouched, and any other leading byte produces the
malformed-payload error (the source's `errors.New` message); through
`Document` decoding the error propagates, so `"data": "x"` and `"data": 1`
fail. -/
theorem container_unmarshal_dispatch :
    (∀ (c : DataContainer) (ms : List (String × JSON)),
        (DataContainer.unmarshalJSON c (.obj ms)).1.dataArray = c.dataArray ∧
        ((DataContainer.unmarshalJSON c (.obj ms)).2 = none →
          ∃ d, Data.fromJSONInto (c.dataObject.getD default) (.obj ms) = .ok d ∧
            (DataContainer.unmarshalJSON c (.obj ms)).1.dataObject = some d)) ∧
    (∀ (c : DataContainer) (es : List JSON),
        (DataContainer.unmarshalJSON c (.arr es)).1.dataObject = c.dataObject ∧
        ((DataContainer.unmarshalJSON c (.arr es)).2 = none →
          ∃ ds, decodeDataList (c.dataArray.getD []) es = .ok ds ∧
            (DataContainer.unmarshalJSON c (.arr es)).1.dataArray = some ds)) ∧
    (∀ (c : DataContainer) (p : JSON), p.firstByte ≠ objectSuffix →
        p.firstByte ≠ arraySuffix →
        DataContainer.unmarshalJSON c p = (c, some "expected a JSON encoded object or array")) ∧
    (∀ (c : RelationshipDataContainer) (ms : List (String × JSON)),
        (RelationshipDataContainer.unmarshalJSON c (.obj ms)).1.dataArray = c.dataArray ∧
        ((RelationshipDataContainer.unmarshalJSON c (.obj ms)).2 = none →
          ∃ d, RelationshipData.fromJSONInto (c.dataObject.getD default) (.obj ms) = .ok d ∧
            (RelationshipDataContainer.unmarshalJSON c (.obj ms)).1.dataObject = some d)) ∧
    (∀ (c : RelationshipDataContainer) (es : List JSON),
        (RelationshipDataContainer.unmarshalJSON c (.arr es)).1.dataObject = c.dataObject ∧
        ((RelationshipDataContainer.unmarshalJSON c (.arr es)).2 = none →
          ∃ ds, decodeRelDataList (c.dataArray.getD []) es = .ok ds ∧
            (RelationshipDataContainer.unmarshalJSON c (.arr es)).1.dataArray = some ds)) ∧
    (∀ (c : RelationshipDataContainer) (p : JSON), p.firstByte ≠ objectSuffix →
        p.firstByte ≠ arraySuffix →
        RelationshipDataContainer.unmarshalJSON c p =
          (c, some "Invalid json for relationship data array/object")) ∧
    Document.fromJSON (.obj [("data", .str "x")]) =
      .error "expected a JSON encoded object or array" ∧
    Document.fromJSON (.obj [("data", .num 1)]) =
      .error "expected a JSON encoded object or array" := by
  refine ⟨fun c ms => ?_, fun c es => ?_, fun c p h1 h2 => ?_,
          fun c ms => ?_, fun c es => ?_, fun c p h1 h2 => ?_, rfl, rfl⟩
  · cases h : Data.fromJSONInto (c.dataObject.getD default) (.obj ms) with
    | ok d =>
      exact ⟨by simp [DataContainer.unmarshalJSON, JSON.firstByte, objectSuffix, h],
             fun _ => ⟨d, rfl, by simp [DataContainer.unmarshalJSON, JSON.firstByte, objectSuffix, h]⟩⟩
    | error e =>
      refine ⟨by simp [DataContainer.unmarshalJSON, JSON.firstByte, objectSuffix, h], fun hok => ?_⟩
      simp [DataContainer.unmarshalJSON, JSON.firstByte, objectSuffix, h] at hok
  · cases h : decodeDataList (c.dataArray.getD []) es with
    | ok ds =>
      exact ⟨by simp [DataContainer.unmarshalJSON, JSON.firstByte, objectSuffix, arraySuffix,
               decodeDataArr, h],
             fun _ => ⟨ds, rfl, by simp [DataContainer.unmarshalJSON, JSON.firstByte, objectSuffix,
               arraySuffix, decodeDataArr, h]⟩⟩
    | error e =>
      refine ⟨by simp [DataContainer.unmarshalJSON, JSON.firstByte, objectSuffix, arraySuffix,
        decodeDataArr, h], fun hok => ?_⟩
      simp [DataContainer.unmarshalJSON, JSON.firstByte, objectSuffix, arraySuffix,
        decodeDataArr, h] at hok
  · simp [DataContainer.unmarshalJSON, h1, h2]
  · cases h : RelationshipData.fromJSONInto (c.dataObject.getD default) (.obj ms) with
    | ok d =>
      exact ⟨by simp [RelationshipDataContainer.unmarshalJSON, JSON.firstByte, objectSuffix, h],
             fun _ => ⟨d, rfl, by simp [RelationshipDataContainer.unmarshalJSON, JSON.firstByte,
               objectSuffix, h]⟩⟩
    | error e =>
      refine ⟨by simp [RelationshipDataContainer.unmarshalJSON, JSON.firstByte, objectSuffix, h],
        fun hok => ?_⟩
      simp [RelationshipDataContainer.unmarshalJSON, JSON.firstByte, objectSuffix, h] at hok
  · cases h : decodeRelDataList (c.dataArray.getD []) es with
    | ok ds =>
      exact ⟨by simp [RelationshipDataContainer.unmarshalJSON, JSON.firstByte, objectSuffix,
               arraySuffix, decodeRelDataArr, h],
             fun _ => ⟨ds, rfl, by simp [RelationshipDataContainer.unmarshalJSON, JSON.firstByte,
               objectSuffix, arraySuffix, decodeRelDataArr, h]⟩⟩
    | error e =>
      refine ⟨by simp [RelationshipDataContainer.unmarshalJSON, JSON.firstByte, objectSuffix,
        arraySuffix, decodeRelDataArr, h], fun hok => ?_⟩
      simp [RelationshipDataContainer.unmarshalJSON, JSON.firstByte, objectSuffix,
        arraySuffix, decodeRelDataArr, h] at hok
  · simp [RelationshipDataContainer.unmarshalJSON, h1, h2]

/-- Witness for C3 at concrete payloads: a string payload fails on the
resource container, a number payload fails on the reference container. -/
theorem container_unmarshal_dispatch_witness :
    DataContainer.unmarshalJSON ⟨none, none⟩ (.str "x") =
      (⟨none, none⟩, some "expected a JSON encoded object or array") ∧
    RelationshipDataContainer.unmarshalJSON ⟨none, none⟩ (.num 1) =
      (⟨none, none⟩, some "Invalid json for relationship data array/object") :=
  ⟨container_unmarshal_dispatch.2.2.1 ⟨none, none⟩ (.str "x") (by decide) (by decide),
   container_unmarshal_dispatch.2.2.2.2.2.1 ⟨none, none⟩ (.num 1) (by decide) (by decide)⟩

/-- C4: projection builds exactly the mapping of those requested names that
resolve through the host's `json`-tag metadata (`CustomObject.JSONToStruct`:
the tag's portion before the first comma, excluding `-` and untagged fields),
each bound to the named field's current value; unresolvable requested names
are silently absent.  `CustomObject.marshalJSON` encodes that mapping as a
JSON object. -/
theorem projection_lookup_characterization (co : CustomObject) (n : String) :
    CustomObject.marshalJSON co = .obj co.projectionMembers ∧
    lookupA n co.projectionMembers =
      (if n ∈ co.fields ∧ (lookupA n co.JSONToStruct).getD "" ≠ "" then
        some ((fieldByName (getValue co.object) ((lookupA n co.JSONToStruct).getD "")).getD
          JSON.null)
      else none) := by
  refine ⟨rfl, ?_⟩
  unfold CustomObject.projectionMembers
  rw [foldl_projStep_lookup]
  simp [lookupA]

/-- C10: a projection whose requested-field list is empty, or whose every
requested name is unresolvable, marshals to the empty JSON object — never to
the null literal (and the model is total, so no error is possible). -/
theorem projection_empty_or_unresolvable (co : CustomObject)
    (h : co.fields = [] ∨ ∀ f ∈ co.fields, (lookupA f co.JSONToStruct).getD "" = "") :
    co.marshalJSON = JSON.obj [] ∧ co.marshalJSON ≠ JSON.null := by
  have hm : co.projectionMembers = [] := by
    rcases h with h | h
    · simp [CustomObject.projectionMembers, h]
    · exact foldl_projStep_skip _ _ _ _ h
  exact ⟨by simp [CustomObject.marshalJSON, hm], by simp [CustomObject.marshalJSON, hm]⟩

/-- Witness for C10: requesting only the `-`-excluded and an unknown name
against `hostWit` yields the empty object. -/
theorem projection_empty_or_unresolvable_witness :
    CustomObject.marshalJSON coWit10 = JSON.obj [] :=
  (projection_empty_or_unresolvable coWit10 (Or.inr (by decide))).1

/-- C5: `FilterFields.ParseQuery` is total (never fails), and after it runs
the entry stored under a type name `t` is exactly: the comma-join of the
values of the last query key capturing `t` through the case-insensitive
`fields[...]` pattern, re-split on commas — while keys that capture nothing
of `t` leave the entry as it was (non-matching keys are ignored). -/
theorem parsequery_characterization (f : FilterFields) (q : URLValues) (t : GoStr) :
    lookupA t (FilterFields.ParseQuery f q) =
      match lastCaptureValues q t with
      | some vs => some (stringsSplitComma (stringsJoinComma vs))
      | none => lookupA t f :=
  parseQuery_lookup f q t

/-- C6 counterexample: on
`fields[articles]=title,body&fields[Articles]=author` the parser stores two
entries (the captures `articles` and `Articles` are distinct map keys), so
the claimed single-entry result is false. -/
theorem parsequery_case_cex :
    (FilterFields.ParseQuery [] qCase).length ≠ 1 := by decide

/-- C6 (amended): both keys of
`fields[articles]=title,body&fields[Articles]=author` match the
case-insensitive pattern, but their captures differ in case and are stored as
two distinct entries; last-write-wins applies only when two keys produce the
identical capture, as with `fields[articles]` and `FIELDS[articles]`. -/
theorem parsequery_case_two_entries :
    FilterFields.ParseQuery [] qCase =
      [("articles".data, ["title".data, "body".data]),
       ("Articles".data, ["author".data])] ∧
    FilterFields.ParseQuery [] qSame = [("articles".data, ["author".data])] := by
  exact ⟨by decide, by decide⟩

/-- C9: `ParseQuery` only writes entries whose key is the capture of some
matching query key; an entry under any type name no query key captures is
exactly what it was before the call — the map is merged into, never
cleared. -/
theorem parsequery_frame (f : FilterFields) (q : URLValues) (t : GoStr)
    (h : ∀ kv ∈ q, fieldsCapture kv.1 ≠ some t) :
    lookupA t (FilterFields.ParseQuery f q) = lookupA t f := by
  have hfil : q.filter (fun kv => fieldsCapture kv.1 == some t) = [] := by
    rw [List.filter_eq_nil_iff]
    intro kv hkv
    simp [h kv hkv]
  have hlast : lastCaptureValues q t = none := by simp [lastCaptureValues, hfil]
  rw [parseQuery_lookup, hlast]

/-- Witness for C9: a pre-existing `articles` entry survives a query whose
only key does not match the pattern. -/
theorem parsequery_frame_witness :
    lookupA "articles".data
        (FilterFields.ParseQuery [("articles".data, ["x".data])]
          [("sort".data, ["id".data])]) =
      lookupA "articles".data [("articles".data, ["x".data])] :=
  parsequery_frame [("articles".data, ["x".data])] [("sort".data, ["id".data])]
    "articles".data (by decide)

/-- C8: when the payload's first byte is neither `{` nor `[`, both
containers' `UnmarshalJSON` return the malformed-payload error and leave the
receiver completely unchanged — both slots keep their previous values. -/
theorem unmarshal_badprefix_frame (p : JSON)
    (h1 : p.firstByte ≠ objectSuffix) (h2 : p.firstByte ≠ arraySuffix) :
    (∀ c : DataContainer,
      DataContainer.unmarshalJSON c p =
        (c, some "expected a JSON encoded object or array")) ∧
    (∀ c : RelationshipDataContainer,
      RelationshipDataContainer.unmarshalJSON c p =
        (c, some "Invalid json for relationship data array/object")) :=
  ⟨fun c => by simp [DataContainer.unmarshalJSON, h1, h2],
   fun c => by simp [RelationshipDataContainer.unmarshalJSON, h1, h2]⟩

/-- Witness for C8: a `true` payload leaves a populated container exactly as
it was, error returned. -/
theorem unmarshal_badprefix_frame_witness :
    DataContainer.unmarshalJSON ⟨none, some []⟩ (.bool true) =
      (⟨none, some []⟩, some "expected a JSON encoded object or array") :=
  (unmarshal_badprefix_frame (.bool true) (by decide) (by decide)).1 ⟨none, some []⟩

/-- C7: `Document` marshalling always emits the `data` member — as the JSON
null literal when the container pointer is nil — while `included` and `meta`
are omitted entirely when absent; and each of the six `Links` members is
present exactly when its string is non-empty, so absent links are omitted
rather than encoded as empty strings. -/
theorem document_wire_keys :
    (∀ d : Document, "data" ∈ (documentMembers d).map Prod.fst) ∧
    (∀ d : Document, d.data = none → ("data", JSON.null) ∈ documentMembers d) ∧
    (∀ d : Document, d.included = [] → "included" ∉ (documentMembers d).map Prod.fst) ∧
    (∀ d : Document, d.meta = [] → "meta" ∉ (documentMembers d).map Prod.fst) ∧
    (∀ l : Links,
      (("self" ∈ (linksMembers l).map Prod.fst) ↔ l.self ≠ "") ∧
      (("related" ∈ (linksMembers l).map Prod.fst) ↔ l.related ≠ "") ∧
      (("first" ∈ (linksMembers l).map Prod.fst) ↔ l.first ≠ "") ∧
      (("prev" ∈ (linksMembers l).map Prod.fst) ↔ l.previous ≠ "") ∧
      (("next" ∈ (linksMembers l).map Prod.fst) ↔ l.next ≠ "") ∧
      (("last" ∈ (linksMembers l).map Prod.fst) ↔ l.last ≠ "")) := by
  refine ⟨fun d => ?_, fun d h => ?_, fun d h => ?_, fun d h => ?_, fun l => ?_⟩
  · obtain ⟨ln, dt, inc, mt⟩ := d
    rcases ln with _ | l <;> simp [documentMembers]
  · obtain ⟨ln, dt, inc, mt⟩ := d
    simp only at h
    subst h
    rcases ln with _ | l <;> simp [documentMembers]
  · obtain ⟨ln, dt, inc, mt⟩ := d
    simp only at h
    subst h
    rcases ln with _ | l <;> rcases mt with _ | ⟨m, ms⟩ <;> simp [documentMembers]
  · obtain ⟨ln, dt, inc, mt⟩ := d
    simp only at h
    subst h
    rcases ln with _ | l <;> rcases inc with _ | ⟨x, xs⟩ <;> simp [documentMembers]
  · obtain ⟨s, r, f, p, n, la⟩ := l
    by_cases hs : s = "" <;> by_cases hr : r = "" <;> by_cases hf : f = "" <;>
      by_cases hp : p = "" <;> by_cases hn : n = "" <;> by_cases hl : la = "" <;>
      simp_all [linksMembers, omitemptyStr]

/-- Witness for C7: the always-null data member of the empty document, the
omitted `included` member, and the omitted `self` of a partially-set link
set. -/
theorem document_wire_keys_witness :
    ("data", JSON.null) ∈ documentMembers ⟨none, none, [], []⟩ ∧
    "included" ∉ (documentMembers ⟨none, none, [], []⟩).map Prod.fst ∧
    "self" ∉ (linksMembers ⟨"", "x", "", "", "", ""⟩).map Prod.fst :=
  ⟨document_wire_keys.2.1 ⟨none, none, [], []⟩ rfl,
   document_wire_keys.2.2.1 ⟨none, none, [], []⟩ rfl,
   fun hm => (document_wire_keys.2.2.2.2 ⟨"", "x", "", "", "", ""⟩).1.mp hm rfl⟩

end Jsonapi
